import Mathlib

/-!
# Eloquent JavaScript exercises (chapters 8 to 10): a verification development

Shallow embedding of

* `chapter 10 exercises/roadModules/graph.js` (`buildGraph`, `addEdge`),
* `chapter 8 exercises/lockedBox.js` (`box`, `withBoxUnlocked`),
* `chapter 9 exercises/numbersAgain.js` (`expression`),
* `chapter 8 exercises/retry.js` (`primitiveMultiply`, `trial`),

followed by the properties proved about them.
-/

set_option autoImplicit false

/-! ## graph.js -/

namespace RoadGraph

/-- Node identifiers. The graph is a prototype-less JavaScript object, whose
property keys are strings. -/
abbrev NodeId := String

/-- One element `[from, to]` of `roads`. -/
abbrev Road := NodeId × NodeId

/-- The object `graph`: its own properties, each a key with the array stored
under it, listed in order of creation. -/
abbrev Graph := List (NodeId × List NodeId)

/-- Property read `graph[key]`: `none` stands for `undefined`. The object is
made by `Object.create(null)`, so nothing is inherited. -/
def lookup : Graph → NodeId → Option (List NodeId)
  | [], _ => none
  | (k, v) :: rest, key => if k = key then some v else lookup rest key

/-- In-place `graph[key].push(dest)` on the array stored under `key`. -/
def push : Graph → NodeId → NodeId → Graph
  | [], _, _ => []
  | (k, v) :: rest, key, dest =>
    if k = key then (k, v ++ [dest]) :: rest else (k, v) :: push rest key dest

/-- Inner function `addEdge(from, to)` of `buildGraph`, with the captured
`graph` passed explicitly. An array is always truthy, so `!graph[from]` holds
exactly when the property is absent. (`frm` and `dest` stand for `from` and
`to`, reserved words here.) -/
def addEdge (graph : Graph) (frm dest : NodeId) : Graph :=
  match lookup graph frm with
  | none => graph ++ [(frm, [dest])]
  | some _ => push graph frm dest

/-- One turn of the loop `for (let [from, to] of roads)`. -/
def step (graph : Graph) (road : Road) : Graph :=
  addEdge (addEdge graph road.1 road.2) road.2 road.1

/-- Function `buildGraph(roads)`. -/
def buildGraph (roads : List Road) : Graph :=
  roads.foldl step []

/-- Own property keys of the graph. -/
def keys (graph : Graph) : List NodeId := graph.map Prod.fst

/-- Neighbour list of `a`, an absent key read as the empty list. -/
def neighbours (graph : Graph) (a : NodeId) : List NodeId :=
  (lookup graph a).getD []

/-- What one edge `(f, t)` contributes to the neighbour list of `a`: `t` if
`f = a`, then `f` if `t = a`. -/
def emit (a : NodeId) (road : Road) : List NodeId :=
  (if road.1 = a then [road.2] else []) ++ (if road.2 = a then [road.1] else [])

/-- Scan of the edge list from first to last, collecting what each edge
contributes to the neighbour list of `a`. -/
def scan (roads : List Road) (a : NodeId) : List NodeId :=
  roads.flatMap (emit a)

/-- Sum of the lengths of all the neighbour lists stored in the graph. -/
def totalLength (graph : Graph) : Nat := (graph.map fun p => p.2.length).sum

/-- What the loop of `buildGraph` keeps true of the object: keys are distinct
and no stored array is empty. -/
def WellFormed (g : Graph) : Prop :=
  (keys g).Nodup ∧ ∀ p ∈ g, p.2 ≠ []

end RoadGraph

/-! ## lockedBox.js -/

namespace LockedBox

/-- A thrown value `new Error(message)`. -/
structure JsError where
  message : String
deriving DecidableEq, Repr

/-- Elements of the array `box._content`. -/
abbrev Item := String

/-- The object `box`: its data properties `locked` and `_content`. -/
structure Box where
  locked : Bool
  _content : List Item
deriving DecidableEq, Repr

/-- Program state: the global `box`, and in `env` everything else a callback
can reach (the variables it closes over). -/
structure World (σ : Type) where
  box : Box
  env : σ

/-- A JavaScript function call as a state transformer: from the state at the
call to the state at its exit, together with the returned value or the thrown
error. -/
abbrev Js (σ α : Type) := World σ → World σ × Except JsError α

/-- The object literal bound to `box`: locked, with no content. -/
def box : Box := { locked := true, _content := [] }

/-- Method `unlock() { this.locked = false }`. -/
def Box.unlock (this : Box) : Box := { this with locked := false }

/-- Method `lock() { this.locked = true }`. -/
def Box.lock (this : Box) : Box := { this with locked := true }

/-- Getter `get content()`: throws `Error("Locked!")` when `this.locked`,
returns `this._content` otherwise. The first component is the object after the
read. -/
def Box.content (this : Box) : Box × Except JsError (List Item) :=
  if this.locked then (this, .error ⟨"Locked!"⟩) else (this, .ok this._content)

/-- Function `withBoxUnlocked(body)`. The `try` block unlocks a locked box and
sets `progress`, then calls `body`; the `finally` block runs on both exits and
locks the box when `progress == 1`; the completion of `body` (normal, its value
discarded, or thrown) is the completion of the call. -/
def withBoxUnlocked {σ α : Type} (body : Js σ α) : Js σ Unit := fun w =>
  let progress : Nat := 0
  let entered : World σ × Nat :=
    if w.box.locked then ({ w with box := w.box.unlock }, 1) else (w, progress)
  let out := body entered.1
  let final : World σ :=
    if entered.2 == 1 then { out.1 with box := out.1.box.lock } else out.1
  (final, out.2.map fun _ => ())

/-- The body `() => { withBoxUnlocked(inner); rest() }` of a nested use: `rest`
runs only when the inner call returns normally. -/
def nestedBody {σ α β : Type} (inner : Js σ α) (rest : Js σ β) : Js σ β := fun w =>
  let mid := withBoxUnlocked inner w
  match mid.2 with
  | .ok _ => rest mid.1
  | .error e => (mid.1, .error e)

/-- A body whose first action is the read `box.content`, the value read being
handed to the remainder `k` of the body. -/
def readFirst {σ α : Type} (k : List Item → Js σ α) : Js σ α := fun w =>
  match w.box.content with
  | (b, .ok c) => k c { w with box := b }
  | (b, .error e) => ({ w with box := b }, .error e)

/-- A body instrumented with a call counter kept next to its environment: every
invocation adds one to the counter and otherwise behaves as `body`. -/
def counted {σ α : Type} (body : Js σ α) : Js (σ × Nat) α := fun w =>
  let out := body { box := w.box, env := w.env.1 }
  ({ box := out.1.box, env := (out.1.env, w.env.2 + 1) }, out.2)

/-- The body `() => { box.lock() }`. -/
def lockingBody : Js Unit Unit := fun w => ({ w with box := w.box.lock }, .ok ())

/-- The body `() => { box.unlock(); throw new Error("Pirates on the horizon! Abort!") }`. -/
def unlockThenThrow : Js Unit Unit := fun w =>
  ({ w with box := w.box.unlock }, .error ⟨"Pirates on the horizon! Abort!"⟩)

/-- The body `function() { box.content.push("gold piece") }` of the first call
in the script. -/
def goldPiece : Js Unit Unit :=
  readFirst fun c w => ({ w with box := { w.box with _content := c ++ ["gold piece"] } }, .ok ())

/-- The body `function() { throw new Error("Pirates on the horizon! Abort!") }`
of the second call in the script. -/
def pirates : Js Unit Unit := fun w => (w, .error ⟨"Pirates on the horizon! Abort!"⟩)

/-- The body `() => box.content.push(x)`: the getter is read first, then `x` is
appended in place to the array it returned, which is `box._content` itself; the
value of the body is the new length. -/
def pushItem {σ : Type} (x : Item) : Js σ Nat :=
  readFirst fun c w =>
    ({ w with box := { w.box with _content := c ++ [x] } }, .ok (c.length + 1))

/-- A state with the box unlocked and holding one item. -/
def unlockedWorld : World Unit := { box := { locked := false, _content := ["map"] }, env := () }

/-- The state at the start of the script. -/
def initialWorld : World Unit := { box := box, env := () }

end LockedBox

/-! ## numbersAgain.js -/

namespace NumbersAgain

open RegularExpression in
/-- A character class `[...]` listing its members. -/
def oneOf (cs : List Char) : RegularExpression Char :=
  cs.foldr (fun c r => char c + r) 0

/-- The ten characters matched by the class `\d`. -/
def digitChars : List Char := ['0', '1', '2', '3', '4', '5', '6', '7', '8', '9']

/-- The class `\d`. -/
def digit : RegularExpression Char := oneOf digitChars

/-- Quantifier `r?`. -/
def opt (r : RegularExpression Char) : RegularExpression Char := r + 1

/-- Quantifier `r+`. -/
def many1 (r : RegularExpression Char) : RegularExpression Char := r * RegularExpression.star r

open RegularExpression in
/-- The pattern between `^` and `$` of
`/^[+-]?(\d+|\d+\.\d*|\.\d+|)([eE][+-]?\d*)?$/`. -/
def expression : RegularExpression Char :=
  opt (oneOf ['+', '-'])
    * (many1 digit + (many1 digit * char '.' * star digit + (char '.' * many1 digit + 1)))
    * opt (oneOf ['e', 'E'] * opt (oneOf ['+', '-']) * star digit)

/-- The call `expression.test(s)`: with `^` and `$` and no flags, a match is a
match of the whole string. -/
def test (s : String) : Bool := expression.rmatch s.toList

/-- Zero or more digits. -/
def Digits (x : List Char) : Prop := ∀ c ∈ x, c ∈ digitChars

/-- An optional sign: nothing, `+` or `-`. -/
def Sign (x : List Char) : Prop := x = [] ∨ x = ['+'] ∨ x = ['-']

/-- The mantissa as the specification words it: one or more digits; or one or
more digits, a decimal point and zero or more digits; or a decimal point and
one or more digits; or nothing. -/
def Mantissa (m : List Char) : Prop :=
  (m ≠ [] ∧ Digits m) ∨
  (∃ i f, m = i ++ '.' :: f ∧ i ≠ [] ∧ Digits i ∧ Digits f) ∨
  (∃ f, m = '.' :: f ∧ f ≠ [] ∧ Digits f) ∨
  m = []

/-- The exponent part as the specification words it: `e` or `E`, an optional
sign, zero or more digits. -/
def Exponent (x : List Char) : Prop :=
  ∃ c sg d, x = c :: (sg ++ d) ∧ (c = 'e' ∨ c = 'E') ∧ Sign sg ∧ Digits d

/-- The strings the specification says are accepted: optional sign, mantissa,
optional exponent part, and nothing else. -/
def NumericLiteral (s : List Char) : Prop :=
  ∃ sg m ex, s = sg ++ m ++ ex ∧ Sign sg ∧ Mantissa m ∧ (ex = [] ∨ Exponent ex)

end NumbersAgain

/-! ## retry.js -/

namespace Retry

/-- Thrown values, told apart the way the handler does: instances of
`class MultiplicatorUnitFailure extends Error`, and everything else. -/
inductive Thrown where
  | multiplicatorUnitFailure (message : String)
  | other (name message : String)
deriving DecidableEq, Repr

/-- The test `e instanceof MultiplicatorUnitFailure`. -/
def Thrown.isMultiplicatorUnitFailure : Thrown → Bool
  | .multiplicatorUnitFailure _ => true
  | .other _ _ => false

/-- Built-in `Math.round` on a finite number: the nearest integer, a tie going
up. -/
def mathRound (x : ℚ) : ℤ := ⌊x + 1 / 2⌋

/-- Function `primitiveMultiply(a, b)`. Numbers are taken with their rational
values; `times` is the `*` of the language on numbers, left open; `r` is the
value `Math.random()` returns in this call. -/
def primitiveMultiply (times : ℚ → ℚ → ℚ) (r a b : ℚ) : Except Thrown ℚ :=
  if mathRound (times r 100) ≤ 20 then
    .ok (times a b)
  else
    .error (.multiplicatorUnitFailure "Failed to multiply")

/-- A value a call evaluates to: `undefined` or a number. -/
inductive Value where
  | undefined
  | number (v : ℚ)
deriving DecidableEq, Repr

/-- One line written to the console: `console.log(result)` or
`console.error(e)`. -/
inductive Output where
  | log (result : ℚ)
  | error (e : Thrown)
deriving DecidableEq, Repr

/-- How a call of `trial` ended: how many times the multiplication was called,
what was written to the console, and the value returned or the error thrown. -/
structure Run where
  calls : Nat
  console : List Output
  completion : Except Thrown Value

/-- The loop `for (;;) { try { ... } catch (e) { ... } }` of `trial`, where
`call i` is the outcome of the `i`-th evaluation of `primitiveMultiply(a, b)`.
On a result: `console.log(result); break`, and the function ends without a
`return`, so its value is `undefined`. On a `MultiplicatorUnitFailure`:
`console.error(e)` and the next turn. On any other error: `throw e`. The loop
has no bound; `none` says that `fuel` turns were not enough to see it end. -/
def trialLoop (call : Nat → Except Thrown ℚ) : Nat → Nat → List Output → Option Run
  | 0, _, _ => none
  | fuel + 1, calls, console =>
    match call calls with
    | .ok result =>
      some { calls := calls + 1, console := console ++ [.log result], completion := .ok .undefined }
    | .error e =>
      if e.isMultiplicatorUnitFailure then
        trialLoop call fuel (calls + 1) (console ++ [.error e])
      else
        some { calls := calls + 1, console := console, completion := .error e }

/-- Function `trial(a, b)`, where `draws i` is the value `Math.random()` returns
in the `i`-th call of `primitiveMultiply`. -/
def trial (times : ℚ → ℚ → ℚ) (draws : Nat → ℚ) (a b : ℚ) (fuel : Nat) : Option Run :=
  trialLoop (fun i => primitiveMultiply times (draws i) a b) fuel 0 []

/-- The results written with `console.log`, in order. -/
def logged (console : List Output) : List ℚ :=
  console.filterMap fun o => match o with
    | .log v => some v
    | .error _ => none

/-- The failures written with `console.error`, in order. -/
def failures (console : List Output) : List Thrown :=
  console.filterMap fun o => match o with
    | .log _ => none
    | .error e => some e

/-- A run of the multiplication unit that is always lucky. -/
def luckyDraws : Nat → ℚ := fun _ => 0

/-- Two unlucky draws, then lucky ones. -/
def twoFaults : Nat → ℚ := fun i => if i < 2 then 1 / 2 else 1 / 10

/-- Outcomes of a multiplication that fails twice as a unit failure and then
throws a `TypeError`, as `a * b` does on a `BigInt` and a number. -/
def typeErrorThird : Nat → Except Thrown ℚ := fun i =>
  if i < 2 then .error (.multiplicatorUnitFailure "Failed to multiply")
  else .error (.other "TypeError" "Cannot mix BigInt and other types, use explicit conversions")

end Retry

/-! ## Properties of graph.js -/

namespace RoadGraph

theorem lookup_append_single (g : Graph) (k a : NodeId) (v : List NodeId) :
    lookup (g ++ [(k, v)]) a
      = match lookup g a with
        | some w => some w
        | none => if k = a then some v else none := by
  induction g with
  | nil => simp [lookup]
  | cons p rest ih =>
    obtain ⟨k', v'⟩ := p
    by_cases h : k' = a
    · simp [lookup, h]
    · simp [lookup, h, ih]

theorem lookup_push (g : Graph) (k t a : NodeId) :
    lookup (push g k t) a
      = if k = a then (lookup g a).map (fun v => v ++ [t]) else lookup g a := by
  induction g with
  | nil => simp [lookup, push]
  | cons p rest ih =>
    obtain ⟨k', v'⟩ := p
    by_cases hk : k' = k
    · subst hk
      by_cases ha : k' = a
      · simp [lookup, push, ha]
      · simp [lookup, push, ha]
    · by_cases ha : k' = a
      · subst ha
        have hk' : ¬ k = k' := fun h => hk h.symm
        simp [lookup, push, hk, hk']
      · simp [lookup, push, hk, ha, ih]

theorem lookup_addEdge (g : Graph) (f t a : NodeId) :
    lookup (addEdge g f t) a
      = if f = a then some (neighbours g a ++ [t]) else lookup g a := by
  unfold addEdge neighbours
  by_cases h : f = a
  · subst h
    cases hl : lookup g f with
    | none => simp [lookup_append_single, hl]
    | some v => simp [lookup_push, hl]
  · cases hl : lookup g f with
    | none =>
      simp only [lookup_append_single, h, if_false]
      cases lookup g a <;> rfl
    | some v => simp [lookup_push, h]

theorem neighbours_addEdge (g : Graph) (f t a : NodeId) :
    neighbours (addEdge g f t) a
      = if f = a then neighbours g a ++ [t] else neighbours g a := by
  by_cases h : f = a
  · simp [neighbours, lookup_addEdge, h]
  · simp [neighbours, lookup_addEdge, h]

theorem neighbours_step (g : Graph) (r : Road) (a : NodeId) :
    neighbours (step g r) a = neighbours g a ++ emit a r := by
  unfold step emit
  rw [neighbours_addEdge, neighbours_addEdge]
  by_cases h1 : r.1 = a <;> by_cases h2 : r.2 = a <;> simp [h1, h2]

theorem neighbours_foldl (roads : List Road) (g : Graph) (a : NodeId) :
    neighbours (roads.foldl step g) a = neighbours g a ++ scan roads a := by
  induction roads generalizing g with
  | nil => simp [scan]
  | cons r rest ih =>
    rw [List.foldl_cons, ih, neighbours_step]
    simp [scan, List.flatMap_cons]

theorem mem_keys_iff (g : Graph) (a : NodeId) :
    a ∈ keys g ↔ lookup g a ≠ none := by
  induction g with
  | nil => simp [keys, lookup]
  | cons p rest ih =>
    obtain ⟨k, v⟩ := p
    by_cases h : k = a
    · simp [keys, lookup, h]
    · have h' : ¬ a = k := fun e => h e.symm
      simp only [keys, List.map_cons, List.mem_cons, h', false_or, lookup, h, if_false]
      exact ih

theorem keys_push (g : Graph) (k t : NodeId) : keys (push g k t) = keys g := by
  induction g with
  | nil => rfl
  | cons p rest ih =>
    obtain ⟨k', v'⟩ := p
    by_cases h : k' = k
    · simp [keys, push, h]
    · simp only [keys, List.map_cons] at ih ⊢
      simp [push, h, ih]

theorem keys_addEdge (g : Graph) (f t : NodeId) :
    keys (addEdge g f t) = if f ∈ keys g then keys g else keys g ++ [f] := by
  unfold addEdge
  cases hl : lookup g f with
  | none =>
    have : ¬ f ∈ keys g := by rw [mem_keys_iff]; simp [hl]
    rw [if_neg this]
    simp [keys]
  | some v =>
    have : f ∈ keys g := by rw [mem_keys_iff]; simp [hl]
    simp [this, keys_push]

theorem mem_keys_addEdge (g : Graph) (f t a : NodeId) :
    a ∈ keys (addEdge g f t) ↔ a ∈ keys g ∨ a = f := by
  rw [keys_addEdge]
  by_cases h : f ∈ keys g
  · simp only [h, if_true]
    constructor
    · exact Or.inl
    · rintro (h' | h')
      · exact h'
      · exact h' ▸ h
  · simp [h]

theorem nodup_keys_addEdge (g : Graph) (f t : NodeId) (h : (keys g).Nodup) :
    (keys (addEdge g f t)).Nodup := by
  rw [keys_addEdge]
  by_cases hf : f ∈ keys g
  · simpa [hf] using h
  · simp only [hf, if_false]
    rw [List.nodup_append]
    refine ⟨h, List.nodup_singleton f, ?_⟩
    intro x hx hx'
    rw [List.mem_singleton] at hx'
    exact hf (hx' ▸ hx)

theorem values_push (g : Graph) (k t : NodeId) (h : ∀ p ∈ g, p.2 ≠ []) :
    ∀ p ∈ push g k t, p.2 ≠ [] := by
  induction g with
  | nil => simp [push]
  | cons q rest ih =>
    obtain ⟨k', v'⟩ := q
    have hrest : ∀ p ∈ rest, p.2 ≠ [] := fun p hp => h p (List.mem_cons_of_mem _ hp)
    by_cases hk : k' = k
    · intro p hp
      simp only [push, hk, if_true, List.mem_cons] at hp
      rcases hp with hp | hp
      · subst hp; simp
      · exact hrest p hp
    · intro p hp
      simp only [push, hk, if_false, List.mem_cons] at hp
      rcases hp with hp | hp
      · subst hp; exact h (k', v') (List.mem_cons_self _ _)
      · exact ih hrest p hp

theorem values_addEdge (g : Graph) (f t : NodeId) (h : ∀ p ∈ g, p.2 ≠ []) :
    ∀ p ∈ addEdge g f t, p.2 ≠ [] := by
  unfold addEdge
  cases lookup g f with
  | none =>
    intro p hp
    simp only [List.mem_append, List.mem_singleton] at hp
    rcases hp with hp | hp
    · exact h p hp
    · subst hp; simp
  | some v => exact values_push g f t h

theorem wellFormed_step (g : Graph) (r : Road) (h : WellFormed g) :
    WellFormed (step g r) :=
  ⟨nodup_keys_addEdge _ _ _ (nodup_keys_addEdge _ _ _ h.1),
   values_addEdge _ _ _ (values_addEdge _ _ _ h.2)⟩

theorem wellFormed_foldl (roads : List Road) (g : Graph) (h : WellFormed g) :
    WellFormed (roads.foldl step g) := by
  induction roads generalizing g with
  | nil => exact h
  | cons r rest ih => exact ih _ (wellFormed_step g r h)

theorem mem_keys_foldl (roads : List Road) (g : Graph) (a : NodeId) :
    a ∈ keys (roads.foldl step g) ↔ a ∈ keys g ∨ ∃ r ∈ roads, r.1 = a ∨ r.2 = a := by
  induction roads generalizing g with
  | nil => simp
  | cons r rest ih =>
    rw [List.foldl_cons, ih]
    unfold step
    rw [mem_keys_addEdge, mem_keys_addEdge]
    simp only [List.mem_cons, exists_eq_or_imp]
    constructor
    · rintro (((h | h) | h) | h)
      · exact Or.inl h
      · exact Or.inr (Or.inl (Or.inl h.symm))
      · exact Or.inr (Or.inl (Or.inr h.symm))
      · exact Or.inr (Or.inr h)
    · rintro (h | (h | h) | h)
      · exact Or.inl (Or.inl (Or.inl h))
      · exact Or.inl (Or.inl (Or.inr h.symm))
      · exact Or.inl (Or.inr h.symm)
      · exact Or.inr h

theorem count_emit (a b : NodeId) (r : Road) :
    (emit a r).count b
      = (if r = (a, b) then 1 else 0) + (if r = (b, a) then 1 else 0) := by
  obtain ⟨f, t⟩ := r
  unfold emit
  by_cases h1 : f = a <;> by_cases h2 : t = a <;> by_cases h3 : t = b <;> by_cases h4 : f = b <;>
    simp_all [List.count_cons, List.count_nil, Prod.ext_iff]

theorem count_scan (roads : List Road) (a b : NodeId) :
    (scan roads a).count b = roads.count (a, b) + roads.count (b, a) := by
  induction roads with
  | nil => simp [scan]
  | cons r rest ih =>
    have hs : scan (r :: rest) a = emit a r ++ scan rest a := by
      simp [scan, List.flatMap_cons]
    rw [hs, List.count_append, ih, count_emit, List.count_cons, List.count_cons]
    simp only [beq_iff_eq]
    omega

theorem scan_eq_nil_iff (roads : List Road) (a : NodeId) :
    scan roads a = [] ↔ ¬ ∃ r ∈ roads, r.1 = a ∨ r.2 = a := by
  unfold scan
  rw [List.flatMap_eq_nil_iff]
  constructor
  · rintro h ⟨r, hr, hra⟩
    have := h r hr
    unfold emit at this
    rcases hra with e | e <;> simp [e] at this
  · intro h r hr
    have h1 : ¬ r.1 = a := fun e => h ⟨r, hr, Or.inl e⟩
    have h2 : ¬ r.2 = a := fun e => h ⟨r, hr, Or.inr e⟩
    simp [emit, h1, h2]

theorem neighbours_buildGraph (roads : List Road) (a : NodeId) :
    neighbours (buildGraph roads) a = scan roads a := by
  unfold buildGraph
  rw [neighbours_foldl]
  simp [neighbours, lookup]

theorem lookup_buildGraph (roads : List Road) (a : NodeId) :
    lookup (buildGraph roads) a
      = if scan roads a = [] then none else some (scan roads a) := by
  have hn := neighbours_buildGraph roads a
  have hk := mem_keys_foldl roads [] a
  rw [mem_keys_iff] at hk
  simp only [keys, List.map_nil, List.not_mem_nil, false_or] at hk
  by_cases hs : scan roads a = []
  · rw [if_pos hs]
    by_contra hne
    exact (scan_eq_nil_iff roads a).1 hs (hk.1 hne)
  · rw [if_neg hs]
    cases hl : lookup (buildGraph roads) a with
    | none => simp [neighbours, hl] at hn; exact absurd hn hs
    | some v => simp [neighbours, hl] at hn; rw [hn]

theorem totalLength_push (g : Graph) (k t : NodeId) (v : List NodeId)
    (h : lookup g k = some v) : totalLength (push g k t) = totalLength g + 1 := by
  induction g with
  | nil => simp [lookup] at h
  | cons p rest ih =>
    obtain ⟨k', v'⟩ := p
    by_cases hk : k' = k
    · simp [totalLength, push, hk]
      omega
    · simp only [lookup, hk, if_false] at h
      have := ih h
      simp only [totalLength, push, hk, if_false, List.map_cons, List.sum_cons] at this ⊢
      omega

theorem totalLength_addEdge (g : Graph) (f t : NodeId) :
    totalLength (addEdge g f t) = totalLength g + 1 := by
  unfold addEdge
  cases hl : lookup g f with
  | none => simp [totalLength]
  | some v => exact totalLength_push g f t v hl

theorem totalLength_foldl (roads : List Road) (g : Graph) :
    totalLength (roads.foldl step g) = totalLength g + 2 * roads.length := by
  induction roads generalizing g with
  | nil => simp
  | cons r rest ih =>
    rw [List.foldl_cons, ih]
    unfold step
    rw [totalLength_addEdge, totalLength_addEdge, List.length_cons]
    omega

theorem scan_append (r1 r2 : List Road) (a : NodeId) :
    scan (r1 ++ r2) a = scan r1 a ++ scan r2 a := by
  simp [scan, List.flatMap_append]

/-! ### Claims about `buildGraph` -/

/-- C1: for every edge list and every pair `(a, b)` occurring in it, the graph
built by `buildGraph` stores a neighbour list under `a` that contains `b` and a
neighbour list under `b` that contains `a`. -/
theorem buildGraph_edge_both_ways (roads : List Road) (a b : NodeId)
    (h : (a, b) ∈ roads) :
    (∃ v, lookup (buildGraph roads) a = some v ∧ b ∈ v) ∧
    (∃ w, lookup (buildGraph roads) b = some w ∧ a ∈ w) := by
  have hb : b ∈ scan roads a := by
    unfold scan
    rw [List.mem_flatMap]
    exact ⟨(a, b), h, by simp [emit]⟩
  have ha : a ∈ scan roads b := by
    unfold scan
    rw [List.mem_flatMap]
    exact ⟨(a, b), h, by simp [emit]⟩
  constructor
  · refine ⟨scan roads a, ?_, hb⟩
    rw [lookup_buildGraph, if_neg (List.ne_nil_of_mem hb)]
  · refine ⟨scan roads b, ?_, ha⟩
    rw [lookup_buildGraph, if_neg (List.ne_nil_of_mem ha)]

/-- Witness of C1 on the two-road list `A-B, B-C`, at the pair `(B, C)`. -/
theorem buildGraph_edge_both_ways_witness :
    (("B", "C") : Road) ∈ [(("A", "B") : Road), ("B", "C")] ∧
    ((∃ v, lookup (buildGraph [("A", "B"), ("B", "C")]) "B" = some v ∧ "C" ∈ v) ∧
     (∃ w, lookup (buildGraph [("A", "B"), ("B", "C")]) "C" = some w ∧ "B" ∈ w)) :=
  ⟨by simp, buildGraph_edge_both_ways [("A", "B"), ("B", "C")] "B" "C" (by simp)⟩

/-- C2: the neighbour list of `a` in `buildGraph roads` is exactly the scan of
`roads` from first to last that emits `t` for an edge `(f, t)` with `f = a` and
then `f` when `t = a`; the key `a` is absent exactly when that scan emits
nothing. -/
theorem buildGraph_neighbours_insertion_order (roads : List Road) (a : NodeId) :
    neighbours (buildGraph roads) a = scan roads a ∧
    lookup (buildGraph roads) a
      = (if scan roads a = [] then none else some (scan roads a)) :=
  ⟨neighbours_buildGraph roads a, lookup_buildGraph roads a⟩

/-- C3: the keys of `buildGraph roads` are exactly the endpoints of the roads,
each key occurs once, no key maps to an empty list, and `buildGraph []` is the
empty mapping. -/
theorem buildGraph_keys_are_endpoints (roads : List Road) :
    (∀ a, a ∈ keys (buildGraph roads) ↔ ∃ r ∈ roads, r.1 = a ∨ r.2 = a) ∧
    (keys (buildGraph roads)).Nodup ∧
    (∀ p ∈ buildGraph roads, p.2 ≠ []) ∧
    buildGraph [] = [] := by
  have hwf : WellFormed (buildGraph roads) :=
    wellFormed_foldl roads [] ⟨by simp [keys], by simp⟩
  refine ⟨fun a => ?_, hwf.1, hwf.2, rfl⟩
  unfold buildGraph
  rw [mem_keys_foldl]
  simp [keys]

/-- C4: `buildGraph` never deduplicates. The number of occurrences of `b` in
the neighbour list of `a` is the number of occurrences of `(a, b)` plus the
number of occurrences of `(b, a)` in the edge list; a self-loop `(x, x)` gives
`x` the neighbour list `[x, x]`; and an edge occurs in both endpoint lists at
least as often as it was supplied. -/
theorem buildGraph_no_dedup (roads : List Road) (a b x : NodeId) :
    (neighbours (buildGraph roads) a).count b
      = roads.count (a, b) + roads.count (b, a) ∧
    lookup (buildGraph [(x, x)]) x = some [x, x] ∧
    roads.count (a, b) ≤ (neighbours (buildGraph roads) a).count b ∧
    roads.count (a, b) ≤ (neighbours (buildGraph roads) b).count a := by
  have hn := neighbours_buildGraph roads
  refine ⟨?_, ?_, ?_, ?_⟩
  · rw [hn, count_scan]
  · simp [buildGraph, step, addEdge, lookup, push]
  · rw [hn, count_scan]; omega
  · rw [hn, count_scan]; omega

/-- C19: `buildGraph` distributes over concatenation of edge lists: the
neighbour list of `a` for `r1 ++ r2` is the one for `r1` followed by the one
for `r2`, an absent key read as the empty list; and the lengths of all the
neighbour lists of `buildGraph roads` add up to twice the number of roads. -/
theorem buildGraph_append (r1 r2 roads : List Road) (a : NodeId) :
    neighbours (buildGraph (r1 ++ r2)) a
      = neighbours (buildGraph r1) a ++ neighbours (buildGraph r2) a ∧
    totalLength (buildGraph roads) = 2 * roads.length := by
  constructor
  · rw [neighbours_buildGraph, neighbours_buildGraph, neighbours_buildGraph, scan_append]
  · unfold buildGraph
    rw [totalLength_foldl]
    simp [totalLength]

end RoadGraph

/-! ## Properties of lockedBox.js -/

namespace LockedBox

variable {σ α β : Type}

theorem withBoxUnlocked_of_locked (body : Js σ α) (w : World σ)
    (h : w.box.locked = true) :
    withBoxUnlocked body w
      = ({ (body { w with box := w.box.unlock }).1 with
            box := (body { w with box := w.box.unlock }).1.box.lock },
         (body { w with box := w.box.unlock }).2.map fun _ => ()) := by
  simp [withBoxUnlocked, h]

theorem withBoxUnlocked_of_unlocked (body : Js σ α) (w : World σ)
    (h : w.box.locked = false) :
    withBoxUnlocked body w = ((body w).1, (body w).2.map fun _ => ()) := by
  simp [withBoxUnlocked, h]

theorem unlock_of_unlocked (w : World σ) (h : w.box.locked = false) :
    ({ w with box := w.box.unlock } : World σ) = w := by
  obtain ⟨⟨l, c⟩, e⟩ := w
  simp only at h
  subst h
  rfl

theorem map_unit_eq_error_iff (r : Except JsError α) (e : JsError) :
    (r.map fun _ => ()) = Except.error e ↔ r = Except.error e := by
  cases r <;> simp [Except.map]

/-! ### Claims about `withBoxUnlocked` and `box.content` -/

/-- C5: if the box is locked when `withBoxUnlocked body` is called, it is
locked when the call exits, whatever `body` does to the box and whether it
returns or throws. -/
theorem withBoxUnlocked_locked_on_exit (body : Js σ α) (w : World σ)
    (h : w.box.locked = true) :
    (withBoxUnlocked body w).1.box.locked = true := by
  rw [withBoxUnlocked_of_locked body w h]
  rfl

/-- Witness of C5: from the initial state, with a body that unlocks the box
itself and then throws. -/
theorem withBoxUnlocked_locked_on_exit_witness :
    initialWorld.box.locked = true ∧
    (withBoxUnlocked unlockThenThrow initialWorld).1.box.locked = true :=
  ⟨rfl, withBoxUnlocked_locked_on_exit unlockThenThrow initialWorld rfl⟩

/-- C6 fails as stated: called on an unlocked box with a body that locks it,
`withBoxUnlocked` exits with the box locked, not with the flag it had before
the call. -/
theorem withBoxUnlocked_flag_not_restored :
    unlockedWorld.box.locked = false ∧
    (withBoxUnlocked lockingBody unlockedWorld).1.box.locked = true ∧
    ¬ ∀ (body : Js Unit Unit) (w : World Unit),
        (withBoxUnlocked body w).1.box.locked = w.box.locked := by
  refine ⟨rfl, rfl, fun h => ?_⟩
  have := h lockingBody unlockedWorld
  exact absurd this (by decide)

/-- C6 as amended: a box locked before the call is locked after it; a box
unlocked before the call has after it the flag that `body` left, so the flag
is restored whenever `body`, run on the unlocked box, leaves it unlocked. -/
theorem withBoxUnlocked_flag_on_exit (body : Js σ α) (w : World σ) :
    (w.box.locked = true → (withBoxUnlocked body w).1.box.locked = w.box.locked) ∧
    (w.box.locked = false →
      (withBoxUnlocked body w).1.box.locked = (body w).1.box.locked) ∧
    (w.box.locked = false → (body w).1.box.locked = false →
      (withBoxUnlocked body w).1.box.locked = w.box.locked) := by
  refine ⟨fun h => ?_, fun h => ?_, fun h hb => ?_⟩
  · rw [withBoxUnlocked_of_locked body w h, h]; rfl
  · rw [withBoxUnlocked_of_unlocked body w h]
  · rw [withBoxUnlocked_of_unlocked body w h, hb, h]

/-- Witness of amended C6: the throwing body of the script on the initial
(locked) state, the locking body and the throwing body on an unlocked state. -/
theorem withBoxUnlocked_flag_on_exit_witness :
    (initialWorld.box.locked = true ∧
      (withBoxUnlocked pirates initialWorld).1.box.locked = initialWorld.box.locked) ∧
    (unlockedWorld.box.locked = false ∧
      (withBoxUnlocked lockingBody unlockedWorld).1.box.locked
        = (lockingBody unlockedWorld).1.box.locked) ∧
    (unlockedWorld.box.locked = false ∧ (pirates unlockedWorld).1.box.locked = false ∧
      (withBoxUnlocked pirates unlockedWorld).1.box.locked = unlockedWorld.box.locked) :=
  ⟨⟨rfl, (withBoxUnlocked_flag_on_exit pirates initialWorld).1 rfl⟩,
   ⟨rfl, (withBoxUnlocked_flag_on_exit lockingBody unlockedWorld).2.1 rfl⟩,
   ⟨rfl, rfl, (withBoxUnlocked_flag_on_exit pirates unlockedWorld).2.2 rfl rfl⟩⟩

/-- C7 fails as stated: in the nested use from the initial (locked) box with
`inner = () => { box.lock() }`, the inner call returns normally with the box
locked, so `rest` starts on a locked box; a `rest` that reads `box.content`
gets `Locked!`, which the outer call throws. The box is not unlocked while
`rest` runs for every `inner`. -/
theorem withBoxUnlocked_nested_rest_on_locked_box :
    initialWorld.box.locked = true ∧
    (withBoxUnlocked lockingBody { initialWorld with box := initialWorld.box.unlock }).2
      = .ok () ∧
    (withBoxUnlocked lockingBody
      { initialWorld with box := initialWorld.box.unlock }).1.box.locked = true ∧
    (withBoxUnlocked (nestedBody lockingBody goldPiece) initialWorld).2
      = .error ⟨"Locked!"⟩ ∧
    ¬ ∀ (inner : Js Unit Unit) (w : World Unit), w.box.locked = true →
        (withBoxUnlocked inner { w with box := w.box.unlock }).1.box.locked = false := by
  refine ⟨rfl, rfl, rfl, rfl, fun h => ?_⟩
  have := h lockingBody initialWorld rfl
  exact absurd this (by decide)

/-- C7 as amended: on an already unlocked box `withBoxUnlocked body` neither
unlocks nor locks: the state on exit is the state `body` left and the
completion is that of `body`, so the box is still unlocked when `body` leaves
the flag alone. In the nested use `withBoxUnlocked (nestedBody inner rest)`
from a locked box, the box is locked after the outer call; the outer call is
the inner call on the unlocked box, then `rest` from the state the inner call
left (when it returned normally), then the lock; the inner call leaves the flag
as `inner` left it; so `rest` starts on an unlocked box when `inner`, started
on the unlocked box, leaves it unlocked. -/
theorem withBoxUnlocked_when_already_unlocked
    (body inner : Js σ α) (rest : Js σ β) (w : World σ) :
    (w.box.locked = false →
      withBoxUnlocked body w = ((body w).1, (body w).2.map fun _ => ())) ∧
    (w.box.locked = false → (body w).1.box.locked = w.box.locked →
      (withBoxUnlocked body w).1.box.locked = false) ∧
    (w.box.locked = true →
      (withBoxUnlocked (nestedBody inner rest) w).1.box.locked = true) ∧
    (w.box.locked = true →
      withBoxUnlocked (nestedBody inner rest) w
        = match (withBoxUnlocked inner { w with box := w.box.unlock }).2 with
          | .ok _ =>
            let out := rest (withBoxUnlocked inner { w with box := w.box.unlock }).1
            ({ out.1 with box := out.1.box.lock }, out.2.map fun _ => ())
          | .error e =>
            ({ (withBoxUnlocked inner { w with box := w.box.unlock }).1 with
                box := (withBoxUnlocked inner { w with box := w.box.unlock }).1.box.lock },
             .error e)) ∧
    (withBoxUnlocked inner { w with box := w.box.unlock }).1.box.locked
      = (inner { w with box := w.box.unlock }).1.box.locked ∧
    ((inner { w with box := w.box.unlock }).1.box.locked = false →
      (withBoxUnlocked inner { w with box := w.box.unlock }).1.box.locked = false) := by
  have hu : ({ w with box := w.box.unlock } : World σ).box.locked = false := rfl
  have hflag : (withBoxUnlocked inner { w with box := w.box.unlock }).1.box.locked
      = (inner { w with box := w.box.unlock }).1.box.locked := by
    rw [withBoxUnlocked_of_unlocked inner _ hu]
  refine ⟨withBoxUnlocked_of_unlocked body w, fun h hb => ?_, fun h => ?_, fun h => ?_,
    hflag, fun hi => hflag.trans hi⟩
  · rw [withBoxUnlocked_of_unlocked body w h, hb, h]
  · rw [withBoxUnlocked_of_locked _ w h]; rfl
  · rw [withBoxUnlocked_of_locked _ w h]
    unfold nestedBody
    cases hr : (withBoxUnlocked inner { w with box := w.box.unlock }).2 <;> simp [hr, Except.map]

/-- Witness of amended C7: the throwing body on an unlocked box, and the nested
use `withBoxUnlocked(() => { withBoxUnlocked(goldPiece); pirates() })` from the
initial state. -/
theorem withBoxUnlocked_when_already_unlocked_witness :
    (unlockedWorld.box.locked = false ∧
      withBoxUnlocked pirates unlockedWorld
        = ((pirates unlockedWorld).1, (pirates unlockedWorld).2.map fun _ => ())) ∧
    (unlockedWorld.box.locked = false ∧
      (pirates unlockedWorld).1.box.locked = unlockedWorld.box.locked ∧
      (withBoxUnlocked pirates unlockedWorld).1.box.locked = false) ∧
    (initialWorld.box.locked = true ∧
      (withBoxUnlocked (nestedBody goldPiece pirates) initialWorld).1.box.locked = true) ∧
    (initialWorld.box.locked = true ∧
      (withBoxUnlocked (nestedBody goldPiece pirates) initialWorld).2
        = .error ⟨"Pirates on the horizon! Abort!"⟩) ∧
    ((goldPiece { initialWorld with box := initialWorld.box.unlock }).1.box.locked = false ∧
      (withBoxUnlocked goldPiece
        { initialWorld with box := initialWorld.box.unlock }).1.box.locked = false) :=
  ⟨⟨rfl, (withBoxUnlocked_when_already_unlocked pirates pirates pirates unlockedWorld).1 rfl⟩,
   ⟨rfl, rfl,
    (withBoxUnlocked_when_already_unlocked pirates pirates pirates unlockedWorld).2.1 rfl rfl⟩,
   ⟨rfl,
    (withBoxUnlocked_when_already_unlocked pirates goldPiece pirates initialWorld).2.2.1 rfl⟩,
   ⟨rfl,
    (congrArg Prod.snd
      ((withBoxUnlocked_when_already_unlocked pirates goldPiece pirates initialWorld).2.2.2.1
        rfl)).trans rfl⟩,
   ⟨rfl,
    (withBoxUnlocked_when_already_unlocked pirates goldPiece pirates initialWorld).2.2.2.2.2
      rfl⟩⟩

/-- C8: `withBoxUnlocked body` throws exactly when `body`, run on the unlocked
box, throws, and then throws the same error; it returns normally exactly when
`body` does; and a box locked on entry is locked again in the state in which
the error reaches the caller. -/
theorem withBoxUnlocked_propagates_failure (body : Js σ α) (w : World σ) (e : JsError) :
    ((withBoxUnlocked body w).2 = .error e ↔
      (body { w with box := w.box.unlock }).2 = .error e) ∧
    ((withBoxUnlocked body w).2 = .ok () ↔
      ∃ v, (body { w with box := w.box.unlock }).2 = .ok v) ∧
    (w.box.locked = true → (withBoxUnlocked body w).2 = .error e →
      (withBoxUnlocked body w).1.box.locked = true) := by
  have hres : (withBoxUnlocked body w).2
      = (body { w with box := w.box.unlock }).2.map fun _ => () := by
    cases h : w.box.locked
    · rw [withBoxUnlocked_of_unlocked body w h, unlock_of_unlocked w h]
    · rw [withBoxUnlocked_of_locked body w h]
  refine ⟨?_, ?_, fun h _ => ?_⟩
  · rw [hres]; exact map_unit_eq_error_iff _ e
  · rw [hres]
    cases (body { w with box := w.box.unlock }).2 <;> simp [Except.map]
  · rw [withBoxUnlocked_of_locked body w h]; rfl

/-- Witness of C8: the throwing call of the script, from the initial state. -/
theorem withBoxUnlocked_propagates_failure_witness :
    initialWorld.box.locked = true ∧
    (withBoxUnlocked pirates initialWorld).2
      = .error ⟨"Pirates on the horizon! Abort!"⟩ ∧
    (withBoxUnlocked pirates initialWorld).1.box.locked = true :=
  ⟨rfl, rfl,
   (withBoxUnlocked_propagates_failure pirates initialWorld
      ⟨"Pirates on the horizon! Abort!"⟩).2.2 rfl rfl⟩

/-- C9: the read `box.content` throws exactly when the box is locked, and then
throws `Error("Locked!")`; on an unlocked box it returns `_content`; in both
cases the box is unchanged by the read; and the read fails on the initial
box. -/
theorem content_fails_iff_locked (this : Box) :
    ((∃ e, this.content.2 = .error e) ↔ this.locked = true) ∧
    (this.content.2 = .error ⟨"Locked!"⟩ ↔ this.locked = true) ∧
    (this.locked = false → this.content.2 = .ok this._content) ∧
    this.content.1 = this ∧
    box.content.2 = .error ⟨"Locked!"⟩ := by
  obtain ⟨l, c⟩ := this
  cases l <;> simp [Box.content, box]

/-- Witness of C9: the read on an unlocked box holding one item. -/
theorem content_fails_iff_locked_witness :
    unlockedWorld.box.locked = false ∧
    unlockedWorld.box.content.2 = .ok ["map"] :=
  ⟨rfl, (content_fails_iff_locked unlockedWorld.box).2.2.1 rfl⟩

/-- C10: for every initial lock state `withBoxUnlocked` invokes `body` once (a
call counter carried by the body goes up by exactly one) and starts it on the
unlocked box with the same content and environment, the call doing nothing
else than lock again a box that was locked; so a body whose first action is to
read `box.content` proceeds with the stored content and never takes the
`Locked!` branch of the getter. -/
theorem withBoxUnlocked_runs_body_once_unlocked
    (body : Js σ α) (k : List Item → Js σ α) (w : World σ) (n : Nat) :
    (withBoxUnlocked (counted body) { box := w.box, env := (w.env, n) }).1.env.2 = n + 1 ∧
    ({ w with box := w.box.unlock } : World σ).box.locked = false ∧
    withBoxUnlocked body w
      = ({ (body { w with box := w.box.unlock }).1 with
            box := { (body { w with box := w.box.unlock }).1.box with
              locked := w.box.locked || (body { w with box := w.box.unlock }).1.box.locked } },
         (body { w with box := w.box.unlock }).2.map fun _ => ()) ∧
    withBoxUnlocked (readFirst k) w
      = withBoxUnlocked (fun v => k v.box._content v) w := by
  refine ⟨?_, rfl, ?_, ?_⟩
  · cases h : w.box.locked <;> simp [withBoxUnlocked, counted, h]
  · cases h : w.box.locked
    · rw [withBoxUnlocked_of_unlocked body w h, unlock_of_unlocked w h]
      simp
    · rw [withBoxUnlocked_of_locked body w h]
      simp [Box.lock]
  · cases h : w.box.locked <;>
      simp [withBoxUnlocked, readFirst, Box.content, Box.unlock, h]

/-- C11: mutations made inside the scope persist after the lock is back. On a
locked box holding `c`, `withBoxUnlocked (pushItem x)` returns normally and
leaves the box locked and holding `c` followed by `x`, the rest of the state
untouched; and for every body and state the collection after the call is the
collection `body` left. -/
theorem withBoxUnlocked_keeps_mutations
    (body : Js σ α) (w : World σ) (c : List Item) (x : Item) (env : σ) :
    withBoxUnlocked (pushItem x) { box := { locked := true, _content := c }, env := env }
      = ({ box := { locked := true, _content := c ++ [x] }, env := env }, .ok ()) ∧
    (withBoxUnlocked body w).1.box._content
      = (body { w with box := w.box.unlock }).1.box._content := by
  constructor
  · simp [withBoxUnlocked, pushItem, readFirst, Box.content, Box.unlock, Box.lock, Except.map]
  · cases h : w.box.locked
    · rw [withBoxUnlocked_of_unlocked body w h, unlock_of_unlocked w h]
    · rw [withBoxUnlocked_of_locked body w h]
      rfl

end LockedBox

/-! ## Properties of numbersAgain.js -/

namespace NumbersAgain

open RegularExpression

theorem mem_oneOf (cs x : List Char) :
    x ∈ (oneOf cs).matches' ↔ ∃ c ∈ cs, x = [c] := by
  induction cs with
  | nil =>
    simp only [oneOf, List.foldr_nil, List.not_mem_nil, false_and, exists_false, iff_false]
    exact fun h => h
  | cons c cs ih =>
    have hc : oneOf (c :: cs) = char c + oneOf cs := rfl
    rw [hc, matches'_add, Language.mem_add, ih, matches'_char]
    simp only [List.mem_cons, exists_eq_or_imp]
    rfl

theorem mem_opt (r : RegularExpression Char) (x : List Char) :
    x ∈ (opt r).matches' ↔ x ∈ r.matches' ∨ x = [] := by
  unfold opt
  rw [matches'_add, Language.mem_add, matches'_epsilon, Language.mem_one]

theorem mem_star_digit (x : List Char) : x ∈ (star digit).matches' ↔ Digits x := by
  rw [matches'_star, Language.mem_kstar]
  constructor
  · rintro ⟨L, rfl, hL⟩ c hc
    rw [List.mem_flatten] at hc
    obtain ⟨y, hy, hcy⟩ := hc
    obtain ⟨d, hd, rfl⟩ := (mem_oneOf digitChars y).1 (hL y hy)
    rw [List.mem_singleton] at hcy
    exact hcy ▸ hd
  · intro h
    refine ⟨x.map fun c => [c], ?_, ?_⟩
    · induction x with
      | nil => rfl
      | cons c cs ih =>
        simp only [List.map_cons, List.flatten_cons, List.singleton_append, List.cons.injEq,
          true_and]
        exact ih fun d hd => h d (List.mem_cons_of_mem _ hd)
    · intro y hy
      rw [List.mem_map] at hy
      obtain ⟨c, hc, rfl⟩ := hy
      exact (mem_oneOf digitChars [c]).2 ⟨c, h c hc, rfl⟩

theorem mem_many1_digit (x : List Char) :
    x ∈ (many1 digit).matches' ↔ x ≠ [] ∧ Digits x := by
  unfold many1
  rw [matches'_mul, Language.mem_mul]
  constructor
  · rintro ⟨a, ha, b, hb, rfl⟩
    obtain ⟨c, hc, rfl⟩ := (mem_oneOf digitChars a).1 ha
    refine ⟨by simp, ?_⟩
    intro d hd
    simp only [List.singleton_append, List.mem_cons] at hd
    rcases hd with rfl | hd
    · exact hc
    · exact (mem_star_digit b).1 hb d hd
  · rintro ⟨hne, hd⟩
    cases x with
    | nil => exact absurd rfl hne
    | cons c cs =>
      refine ⟨[c], (mem_oneOf digitChars [c]).2 ⟨c, hd c (List.mem_cons_self _ _), rfl⟩,
        cs, (mem_star_digit cs).2 fun d hd' => hd d (List.mem_cons_of_mem _ hd'), rfl⟩

theorem mem_sign (x : List Char) : x ∈ (opt (oneOf ['+', '-'])).matches' ↔ Sign x := by
  rw [mem_opt, mem_oneOf]
  unfold Sign
  simp only [List.mem_cons, List.mem_singleton, List.not_mem_nil, or_false, exists_eq_or_imp,
    exists_eq_left]
  tauto

theorem mem_mantissa (m : List Char) :
    m ∈ (many1 digit + (many1 digit * char '.' * star digit
          + (char '.' * many1 digit + 1))).matches' ↔ Mantissa m := by
  simp only [matches'_add, matches'_mul, Language.mem_add, Language.mem_mul, matches'_epsilon,
    Language.mem_one, matches'_char]
  unfold Mantissa
  constructor
  · rintro (h | ⟨a, ⟨i, hi, p, hp, rfl⟩, f, hf, rfl⟩ | ⟨p, hp, f, hf, rfl⟩ | h)
    · exact Or.inl ((mem_many1_digit m).1 h)
    · have hp' : p = ['.'] := hp
      subst hp'
      have hi' := (mem_many1_digit i).1 hi
      exact Or.inr (Or.inl ⟨i, f, by simp, hi'.1, hi'.2, (mem_star_digit f).1 hf⟩)
    · have hp' : p = ['.'] := hp
      subst hp'
      have hf' := (mem_many1_digit f).1 hf
      exact Or.inr (Or.inr (Or.inl ⟨f, by simp, hf'.1, hf'.2⟩))
    · exact Or.inr (Or.inr (Or.inr h))
  · rintro (h | ⟨i, f, rfl, hi, hdi, hdf⟩ | ⟨f, rfl, hf, hdf⟩ | h)
    · exact Or.inl ((mem_many1_digit m).2 h)
    · exact Or.inr (Or.inl ⟨i ++ ['.'], ⟨i, (mem_many1_digit i).2 ⟨hi, hdi⟩, ['.'], rfl, rfl⟩,
        f, (mem_star_digit f).2 hdf, by simp⟩)
    · exact Or.inr (Or.inr (Or.inl ⟨['.'], rfl, f, (mem_many1_digit f).2 ⟨hf, hdf⟩, by simp⟩))
    · exact Or.inr (Or.inr (Or.inr h))

theorem mem_exponent (x : List Char) :
    x ∈ (oneOf ['e', 'E'] * opt (oneOf ['+', '-']) * star digit).matches' ↔ Exponent x := by
  rw [matches'_mul, matches'_mul, Language.mem_mul]
  unfold Exponent
  constructor
  · rintro ⟨a, ha, d, hd, rfl⟩
    rw [Language.mem_mul] at ha
    obtain ⟨e, he, sg, hsg, rfl⟩ := ha
    obtain ⟨c, hc, rfl⟩ := (mem_oneOf _ e).1 he
    refine ⟨c, sg, d, by simp, ?_, (mem_sign sg).1 hsg, (mem_star_digit d).1 hd⟩
    simpa using hc
  · rintro ⟨c, sg, d, rfl, hc, hsg, hd⟩
    refine ⟨[c] ++ sg, ?_, d, (mem_star_digit d).2 hd, by simp⟩
    rw [Language.mem_mul]
    exact ⟨[c], (mem_oneOf _ [c]).2 ⟨c, by simpa using hc, rfl⟩, sg, (mem_sign sg).2 hsg, rfl⟩

theorem rmatch_expression_iff (s : List Char) :
    expression.rmatch s = true ↔ NumericLiteral s := by
  rw [rmatch_iff_matches']
  unfold expression NumericLiteral
  rw [matches'_mul, matches'_mul, Language.mem_mul]
  constructor
  · rintro ⟨a, ha, ex, hex, rfl⟩
    rw [Language.mem_mul] at ha
    obtain ⟨sg, hsg, m, hm, rfl⟩ := ha
    refine ⟨sg, m, ex, rfl, (mem_sign sg).1 hsg, (mem_mantissa m).1 hm, ?_⟩
    rcases (mem_opt _ ex).1 hex with h | h
    · exact Or.inr ((mem_exponent ex).1 h)
    · exact Or.inl h
  · rintro ⟨sg, m, ex, rfl, hsg, hm, hex⟩
    refine ⟨sg ++ m, ?_, ex, ?_, rfl⟩
    · rw [Language.mem_mul]
      exact ⟨sg, (mem_sign sg).2 hsg, m, (mem_mantissa m).2 hm, rfl⟩
    · rw [mem_opt]
      rcases hex with h | h
      · exact Or.inr h
      · exact Or.inl ((mem_exponent ex).2 h)

/-! ### Claims about `expression` -/

/-- C12: `expression.test(s)` is true exactly for the strings made of an
optional sign, a mantissa (digits; or digits, a point and zero or more digits;
or a point and digits; or nothing) and an optional exponent part (`e` or `E`,
an optional sign, zero or more digits), taken as a whole; it is false for every
other string. -/
theorem expression_accepts_exactly (s : String) :
    (test s = true ↔ NumericLiteral s.toList) ∧
    (test s = false ↔ ¬ NumericLiteral s.toList) := by
  have h : test s = true ↔ NumericLiteral s.toList := rmatch_expression_iff s.toList
  refine ⟨h, ?_⟩
  rw [← h]
  cases test s <;> simp

/-- C13: the pattern accepts the sample strings `1E10`, `5e-10`, `5.5`, `.3`,
`-5e-4` and `-70e`. -/
theorem expression_accepts_samples :
    test "1E10" = true ∧ test "5e-10" = true ∧ test "5.5" = true ∧
    test ".3" = true ∧ test "-5e-4" = true ∧ test "-70e" = true := by
  refine ⟨?_, ?_, ?_, ?_, ?_, ?_⟩ <;> decide

/-- C14 fails as stated: `expression.test(".")` is not true. -/
theorem expression_lone_dot_not_accepted : ¬ (test "." = true) := by
  decide

/-- C14 as amended: the pattern rejects the one-character string `.`, while it
accepts the empty string (the empty mantissa) and the strings `.3` and `3.`. -/
theorem expression_rejects_lone_dot :
    test "." = false ∧ test "" = true ∧ test ".3" = true ∧ test "3." = true := by
  refine ⟨?_, ?_, ?_, ?_⟩ <;> decide

end NumbersAgain

/-! ## Properties of retry.js -/

namespace Retry

theorem mathRound_le_twenty_iff (x : ℚ) : mathRound x ≤ 20 ↔ x < 41 / 2 := by
  unfold mathRound
  have h : (⌊x + 1 / 2⌋ ≤ 20) ↔ ⌊x + 1 / 2⌋ < 20 + 1 := Int.lt_add_one_iff.symm
  rw [h, Int.floor_lt]
  constructor <;> intro h' <;> push_cast at h' ⊢ <;> linarith

theorem primitiveMultiply_of_lucky (times : ℚ → ℚ → ℚ) (r a b : ℚ)
    (h : mathRound (times r 100) ≤ 20) :
    primitiveMultiply times r a b = .ok (times a b) := by
  simp [primitiveMultiply, h]

theorem primitiveMultiply_of_unlucky (times : ℚ → ℚ → ℚ) (r a b : ℚ)
    (h : ¬ mathRound (times r 100) ≤ 20) :
    primitiveMultiply times r a b = .error (.multiplicatorUnitFailure "Failed to multiply") := by
  simp [primitiveMultiply, h]

theorem trialLoop_failures (call : Nat → Except Thrown ℚ) (es : List Thrown) :
    ∀ (fuel k : Nat) (log : List Output),
      (∀ i x, es[i]? = some x → call (k + i) = .error x) →
      (∀ x ∈ es, x.isMultiplicatorUnitFailure = true) →
      trialLoop call (es.length + fuel) k log
        = trialLoop call fuel (k + es.length) (log ++ es.map Output.error) := by
  induction es with
  | nil => intro fuel k log _ _; simp
  | cons e es ih =>
    intro fuel k log hcall hmuf
    have h0 : call k = .error e := by simpa using hcall 0 e (by simp)
    have he : e.isMultiplicatorUnitFailure = true := hmuf e (List.mem_cons_self _ _)
    have hfuel : (e :: es).length + fuel = (es.length + fuel) + 1 := by
      simp only [List.length_cons]; omega
    rw [hfuel, trialLoop, h0]
    simp only [he, if_true]
    rw [ih fuel (k + 1) (log ++ [Output.error e])
      (fun i x hx => by
        have := hcall (i + 1) x (by simpa using hx)
        rwa [show k + (i + 1) = k + 1 + i by omega] at this)
      (fun x hx => hmuf x (List.mem_cons_of_mem _ hx))]
    simp only [List.length_cons, List.map_cons, List.append_assoc, List.singleton_append]
    rw [show k + 1 + es.length = k + (es.length + 1) by omega]

theorem trialLoop_of_ok (call : Nat → Except Thrown ℚ) (fuel k : Nat) (log : List Output)
    (result : ℚ) (h : call k = .ok result) :
    trialLoop call (fuel + 1) k log
      = some { calls := k + 1, console := log ++ [.log result], completion := .ok .undefined } := by
  rw [trialLoop, h]

theorem trialLoop_of_fatal (call : Nat → Except Thrown ℚ) (fuel k : Nat) (log : List Output)
    (e : Thrown) (h : call k = .error e) (he : e.isMultiplicatorUnitFailure = false) :
    trialLoop call (fuel + 1) k log
      = some { calls := k + 1, console := log, completion := .error e } := by
  rw [trialLoop, h]
  simp [he]

theorem trialLoop_some_ok (call : Nat → Except Thrown ℚ) :
    ∀ (fuel k : Nat) (log : List Output) (run : Run) (v : Value),
      trialLoop call fuel k log = some run → run.completion = .ok v →
      v = .undefined ∧ ∃ (es : List Thrown) (result : ℚ),
        call (k + es.length) = .ok result ∧
        run.calls = k + es.length + 1 ∧
        run.console = log ++ es.map Output.error ++ [.log result] := by
  intro fuel
  induction fuel with
  | zero => intro k log run v h; simp [trialLoop] at h
  | succ fuel ih =>
    intro k log run v h hv
    rw [trialLoop] at h
    cases hc : call k with
    | ok result =>
      rw [hc] at h
      simp only [Option.some.injEq] at h
      subst h
      simp only [Except.ok.injEq] at hv
      exact ⟨hv.symm, [], result, by simpa using hc, by simp, by simp⟩
    | error e =>
      rw [hc] at h
      by_cases he : e.isMultiplicatorUnitFailure = true
      · simp only [he, if_true] at h
        obtain ⟨hu, es, result, h1, h2, h3⟩ := ih (k + 1) _ run v h hv
        refine ⟨hu, e :: es, result, ?_, ?_, ?_⟩
        · rw [List.length_cons, show k + (es.length + 1) = k + 1 + es.length by omega]
          exact h1
        · rw [List.length_cons]; omega
        · rw [h3]; simp
      · simp only [he, Bool.false_eq_true, if_false, Option.some.injEq] at h
        subst h
        simp at hv

theorem logged_failures_then_log (es : List Thrown) (result : ℚ) :
    logged (es.map Output.error ++ [.log result]) = [result] := by
  induction es with
  | nil => simp [logged]
  | cons e es ih =>
    simp only [logged, List.map_cons, List.cons_append] at ih ⊢
    rw [List.filterMap_cons]
    exact ih

theorem trial_first_success (times : ℚ → ℚ → ℚ) (draws : Nat → ℚ) (a b : ℚ) (n fuel : Nat)
    (hfail : ∀ i < n, ¬ mathRound (times (draws i) 100) ≤ 20)
    (hok : mathRound (times (draws n) 100) ≤ 20) :
    trial times draws a b (n + (fuel + 1))
      = some { calls := n + 1,
               console := (List.replicate n (.multiplicatorUnitFailure "Failed to multiply")).map
                   Output.error ++ [.log (times a b)],
               completion := .ok .undefined } := by
  unfold trial
  have h := trialLoop_failures (fun i => primitiveMultiply times (draws i) a b)
    (List.replicate n (.multiplicatorUnitFailure "Failed to multiply")) (fuel + 1) 0 []
    (fun i x hx => by
      rw [List.getElem?_replicate] at hx
      split at hx
      · rename_i hi
        simp only [Option.some.injEq] at hx
        subst hx
        rw [Nat.zero_add]
        exact primitiveMultiply_of_unlucky times (draws i) a b (hfail i hi)
      · simp at hx)
    (fun x hx => by
      rw [List.eq_of_mem_replicate hx]; rfl)
  rw [List.length_replicate] at h
  rw [h, trialLoop_of_ok _ fuel _ _ (times a b)
    (by simpa using primitiveMultiply_of_lucky times (draws n) a b hok)]
  simp

theorem trial_still_running (times : ℚ → ℚ → ℚ) (draws : Nat → ℚ) (a b : ℚ) (n fuel : Nat)
    (hfail : ∀ i < n, ¬ mathRound (times (draws i) 100) ≤ 20) (hfuel : fuel ≤ n) :
    trial times draws a b fuel = none := by
  unfold trial
  have h := trialLoop_failures (fun i => primitiveMultiply times (draws i) a b)
    (List.replicate fuel (.multiplicatorUnitFailure "Failed to multiply")) 0 0 []
    (fun i x hx => by
      rw [List.getElem?_replicate] at hx
      split at hx
      · rename_i hi
        simp only [Option.some.injEq] at hx
        subst hx
        rw [Nat.zero_add]
        exact primitiveMultiply_of_unlucky times (draws i) a b (hfail i (by omega))
      · simp at hx)
    (fun x hx => by
      rw [List.eq_of_mem_replicate hx]; rfl)
  rw [List.length_replicate, Nat.add_zero] at h
  rw [h, trialLoop]

theorem primitiveMultiply_exact_fault_iff (r a b : ℚ) :
    primitiveMultiply (fun x y => x * y) r a b
        = .error (.multiplicatorUnitFailure "Failed to multiply") ↔ 41 / 200 ≤ r := by
  by_cases h : mathRound ((fun x y : ℚ => x * y) r 100) ≤ 20
  · have h' : r * 100 < 41 / 2 := (mathRound_le_twenty_iff _).1 h
    rw [primitiveMultiply_of_lucky _ r a b h]
    constructor
    · intro hc; cases hc
    · intro hc; linarith
  · have h' : ¬ r * 100 < 41 / 2 := fun hc => h ((mathRound_le_twenty_iff _).2 hc)
    rw [primitiveMultiply_of_unlucky _ r a b h]
    simp only [true_iff]
    linarith

/-! ### Claims about `primitiveMultiply` and `trial` -/

/-- C15: for every draw `r` and all numbers `a`, `b`, `primitiveMultiply`
either returns `a * b` or throws a `MultiplicatorUnitFailure`, nothing else; it
returns exactly when `Math.round(r * 100) <= 20`, which is when `r * 100` is
below `20.5`, and throws otherwise; whether it returns does not depend on `a`
and `b`; and with an exact product it throws exactly for the draws from `0.205`
upwards, that is for 159 of the 200 draws `k / 200`. -/
theorem primitiveMultiply_outcome (times : ℚ → ℚ → ℚ) (r a b a' b' : ℚ) :
    (primitiveMultiply times r a b = .ok (times a b) ∨
      primitiveMultiply times r a b
        = .error (.multiplicatorUnitFailure "Failed to multiply")) ∧
    (primitiveMultiply times r a b = .ok (times a b) ↔ mathRound (times r 100) ≤ 20) ∧
    (primitiveMultiply times r a b = .error (.multiplicatorUnitFailure "Failed to multiply")
      ↔ ¬ mathRound (times r 100) ≤ 20) ∧
    (mathRound (times r 100) ≤ 20 ↔ times r 100 < 41 / 2) ∧
    ((primitiveMultiply times r a b).isOk = (primitiveMultiply times r a' b').isOk) ∧
    (primitiveMultiply (fun x y => x * y) r a b
        = .error (.multiplicatorUnitFailure "Failed to multiply") ↔ 41 / 200 ≤ r) ∧
    ((List.range 200).filter fun (k : Nat) =>
        !(primitiveMultiply (fun x y => x * y) ((k : ℚ) / 200) a b).isOk).length = 159 := by
  refine ⟨?_, ?_, ?_, mathRound_le_twenty_iff _, ?_, primitiveMultiply_exact_fault_iff r a b, ?_⟩
  · by_cases h : mathRound (times r 100) ≤ 20
    · exact Or.inl (primitiveMultiply_of_lucky times r a b h)
    · exact Or.inr (primitiveMultiply_of_unlucky times r a b h)
  · by_cases h : mathRound (times r 100) ≤ 20
    · simp [primitiveMultiply_of_lucky times r a b h, h]
    · simp [primitiveMultiply_of_unlucky times r a b h, h]
  · by_cases h : mathRound (times r 100) ≤ 20
    · simp [primitiveMultiply_of_lucky times r a b h, h]
    · simp [primitiveMultiply_of_unlucky times r a b h, h]
  · by_cases h : mathRound (times r 100) ≤ 20
    · simp [primitiveMultiply_of_lucky times r _ _ h, Except.isOk, Except.toBool]
    · simp [primitiveMultiply_of_unlucky times r _ _ h, Except.isOk, Except.toBool]
  · have hp : ∀ k ∈ List.range 200,
        (!(primitiveMultiply (fun x y => x * y) ((k : ℚ) / 200) a b).isOk) = decide (41 ≤ k) := by
      intro k _
      by_cases hk : 41 ≤ k
      · have hq : (41 : ℚ) / 200 ≤ (k : ℚ) / 200 := by
          have : (41 : ℚ) ≤ (k : ℚ) := by exact_mod_cast hk
          linarith
        rw [(primitiveMultiply_exact_fault_iff _ a b).2 hq]
        simp [hk, Except.isOk, Except.toBool]
      · have hq : ¬ (41 : ℚ) / 200 ≤ (k : ℚ) / 200 := by
          intro hle
          have : (41 : ℚ) ≤ (k : ℚ) := by linarith
          exact hk (by exact_mod_cast this)
        have hl : mathRound ((fun x y : ℚ => x * y) ((k : ℚ) / 200) 100) ≤ 20 := by
          by_contra hc
          exact hq ((primitiveMultiply_exact_fault_iff _ a b).1
            (primitiveMultiply_of_unlucky _ _ a b hc))
        rw [primitiveMultiply_of_lucky _ _ a b hl]
        simp [hk, Except.isOk, Except.toBool]
    rw [List.filter_congr hp]
    set_option maxRecDepth 20000 in decide

/-- C16 fails as stated: with a first lucky draw `trial(12, 5)` ends after one
call, writes `60` to the console and returns `undefined`, not the product. -/
theorem trial_returns_undefined :
    trial (fun x y => x * y) luckyDraws 12 5 1
      = some { calls := 1, console := [.log 60], completion := .ok .undefined } ∧
    Value.undefined ≠ Value.number (12 * 5) := by
  constructor
  · have h := trial_first_success (fun x y => x * y) luckyDraws 12 5 0 0
      (fun i hi => absurd hi (Nat.not_lt_zero i))
      ((mathRound_le_twenty_iff _).2 (by norm_num [luckyDraws]))
    rw [h]
    norm_num
  · intro h; cases h

/-- C16 as amended: whenever `trial(a, b)` ends normally it returns `undefined`
and has written exactly one result with `console.log`, as its last line, and
that result is `a * b`; and when some draw is lucky the call does end
normally, given enough turns. -/
theorem trial_logs_product (times : ℚ → ℚ → ℚ) (draws : Nat → ℚ) (a b : ℚ) :
    (∀ (fuel : Nat) (run : Run) (v : Value),
      trial times draws a b fuel = some run → run.completion = .ok v →
      v = .undefined ∧ logged run.console = [times a b] ∧
      run.console.getLast? = some (.log (times a b))) ∧
    ((∃ n, mathRound (times (draws n) 100) ≤ 20) →
      ∃ (fuel : Nat) (run : Run), trial times draws a b fuel = some run ∧
        run.completion = .ok .undefined ∧ logged run.console = [times a b]) := by
  constructor
  · intro fuel run v h hv
    obtain ⟨hu, es, result, hcall, _, hcons⟩ := trialLoop_some_ok _ fuel 0 [] run v h hv
    have hres : result = times a b := by
      simp only [primitiveMultiply] at hcall
      split at hcall
      · simpa using hcall.symm
      · cases hcall
    subst hres
    refine ⟨hu, ?_, ?_⟩
    · rw [hcons, List.nil_append, logged_failures_then_log]
    · rw [hcons]; simp
  · intro hex
    classical
    have hfirst := Nat.find_spec hex
    have hbefore : ∀ i < Nat.find hex, ¬ mathRound (times (draws i) 100) ≤ 20 :=
      fun i hi => Nat.find_min hex hi
    refine ⟨Nat.find hex + (0 + 1), _, trial_first_success times draws a b _ 0 hbefore hfirst,
      rfl, ?_⟩
    exact logged_failures_then_log _ _

/-- Witness of amended C16: `trial(12, 5)` with two unlucky draws and then a
lucky one. -/
theorem trial_logs_product_witness :
    (trial (fun x y => x * y) twoFaults 12 5 3
        = some { calls := 3,
                 console := [.error (.multiplicatorUnitFailure "Failed to multiply"),
                             .error (.multiplicatorUnitFailure "Failed to multiply"),
                             .log 60],
                 completion := .ok .undefined }) ∧
    (logged [.error (.multiplicatorUnitFailure "Failed to multiply"),
             .error (.multiplicatorUnitFailure "Failed to multiply"),
             .log 60] = [(fun x y : ℚ => x * y) 12 5]) ∧
    (∃ n, mathRound ((fun x y : ℚ => x * y) (twoFaults n) 100) ≤ 20) ∧
    (∃ (fuel : Nat) (run : Run), trial (fun x y => x * y) twoFaults 12 5 fuel = some run ∧
        run.completion = .ok .undefined ∧ logged run.console = [(fun x y : ℚ => x * y) 12 5]) := by
  have hok : ∃ n, mathRound ((fun x y : ℚ => x * y) (twoFaults n) 100) ≤ 20 :=
    ⟨2, (mathRound_le_twenty_iff _).2 (by norm_num [twoFaults])⟩
  have hrun : trial (fun x y => x * y) twoFaults 12 5 3
      = some { calls := 3,
               console := [.error (.multiplicatorUnitFailure "Failed to multiply"),
                           .error (.multiplicatorUnitFailure "Failed to multiply"),
                           .log 60],
               completion := .ok .undefined } := ?_
  · exact ⟨hrun,
      ((trial_logs_product (fun x y => x * y) twoFaults 12 5).1 3 _ .undefined hrun rfl).2.1,
      hok, (trial_logs_product (fun x y => x * y) twoFaults 12 5).2 hok⟩
  have h := trial_first_success (fun x y => x * y) twoFaults 12 5 2 0
    (fun i hi => by
      rw [mathRound_le_twenty_iff]
      have : twoFaults i = 1 / 2 := by simp [twoFaults, hi]
      rw [this]; norm_num)
    ((mathRound_le_twenty_iff _).2 (by norm_num [twoFaults]))
  rw [h]
  norm_num [List.replicate]

/-- C17: the loop has no bound on attempts and stops at the first success. When
the first `n` draws are unlucky and the next one is lucky, `trial(a, b)` ends,
for every allowance of at least `n + 1` turns, after exactly `n + 1` calls of
`primitiveMultiply`, having written `n` failures with `console.error` followed
by the product `a * b` with `console.log`, once; and it has not ended within
any allowance of `n` turns or fewer. -/
theorem trial_stops_at_first_success
    (times : ℚ → ℚ → ℚ) (draws : Nat → ℚ) (a b : ℚ) (n fuel : Nat)
    (hfail : ∀ i < n, ¬ mathRound (times (draws i) 100) ≤ 20)
    (hok : mathRound (times (draws n) 100) ≤ 20) :
    (n + 1 ≤ fuel →
      trial times draws a b fuel
        = some { calls := n + 1,
                 console := (List.replicate n (.multiplicatorUnitFailure "Failed to multiply")).map
                     Output.error ++ [.log (times a b)],
                 completion := .ok .undefined }) ∧
    (fuel ≤ n → trial times draws a b fuel = none) ∧
    failures ((List.replicate n (.multiplicatorUnitFailure "Failed to multiply")).map
        Output.error ++ [.log (times a b)])
      = List.replicate n (.multiplicatorUnitFailure "Failed to multiply") ∧
    logged ((List.replicate n (.multiplicatorUnitFailure "Failed to multiply")).map
        Output.error ++ [.log (times a b)]) = [times a b] := by
  refine ⟨fun hf => ?_, trial_still_running times draws a b n fuel hfail, ?_,
    logged_failures_then_log _ _⟩
  · obtain ⟨d, rfl⟩ : ∃ d, fuel = n + (d + 1) := ⟨fuel - (n + 1), by omega⟩
    exact trial_first_success times draws a b n d hfail hok
  · generalize List.replicate n (Thrown.multiplicatorUnitFailure "Failed to multiply") = es
    induction es with
    | nil => simp [failures]
    | cons e es ih =>
      simp only [failures, List.map_cons, List.cons_append] at ih ⊢
      rw [List.filterMap_cons]
      simp only [List.cons.injEq, true_and]
      exact ih

/-- Witness of C17: two unlucky draws, then a lucky one, with an allowance of
five turns. -/
theorem trial_stops_at_first_success_witness :
    trial (fun x y => x * y) twoFaults 12 5 5
      = some { calls := 2 + 1,
               console := (List.replicate 2 (.multiplicatorUnitFailure "Failed to multiply")).map
                   Output.error ++ [.log ((fun x y : ℚ => x * y) 12 5)],
               completion := .ok .undefined } :=
  (trial_stops_at_first_success (fun x y => x * y) twoFaults 12 5 2 5
    (fun i hi => by
      rw [mathRound_le_twenty_iff]
      have : twoFaults i = 1 / 2 := by simp [twoFaults, hi]
      rw [this]; norm_num)
    ((mathRound_le_twenty_iff _).2 (by norm_num [twoFaults]))).1 (by decide)

/-- C18: in the loop of `trial`, when the attempts before the last one threw
the `MultiplicatorUnitFailure`s `es` and the next attempt throws an error `e`
that is not one, the loop ends at once: that attempt is the last call, the
console holds the failures `es` and nothing for `e`, and `trial` throws `e`.
Each turn retries exactly on a `MultiplicatorUnitFailure`. -/
theorem trial_rethrows_other_errors
    (call : Nat → Except Thrown ℚ) (es : List Thrown) (e : Thrown) (fuel : Nat)
    (hes : ∀ i x, es[i]? = some x → call i = .error x)
    (hmuf : ∀ x ∈ es, x.isMultiplicatorUnitFailure = true)
    (hcall : call es.length = .error e)
    (he : e.isMultiplicatorUnitFailure = false)
    (hfuel : es.length + 1 ≤ fuel) :
    trialLoop call fuel 0 []
      = some { calls := es.length + 1, console := es.map Output.error, completion := .error e } ∧
    Output.error e ∉ es.map Output.error ∧
    (∀ (k : Nat) (log : List Output) (x : Thrown), call k = .error x →
      trialLoop call (fuel + 1) k log
        = if x.isMultiplicatorUnitFailure then
            trialLoop call fuel (k + 1) (log ++ [.error x])
          else some { calls := k + 1, console := log, completion := .error x }) := by
  refine ⟨?_, ?_, ?_⟩
  · obtain ⟨d, rfl⟩ : ∃ d, fuel = es.length + (d + 1) := ⟨fuel - (es.length + 1), by omega⟩
    rw [trialLoop_failures call es (d + 1) 0 []
      (fun i x hx => by rw [Nat.zero_add]; exact hes i x hx) hmuf]
    rw [Nat.zero_add, trialLoop_of_fatal call d es.length _ e hcall he]
    simp
  · intro hmem
    rw [List.mem_map] at hmem
    obtain ⟨x, hx, hxe⟩ := hmem
    simp only [Output.error.injEq] at hxe
    subst hxe
    rw [hmuf x hx] at he
    cases he
  · intro k log x hx
    rw [trialLoop, hx]

/-- Witness of C18: two unit failures, then a `TypeError`. -/
theorem trial_rethrows_other_errors_witness :
    trialLoop typeErrorThird 4 0 []
      = some { calls := 3,
               console := [.error (.multiplicatorUnitFailure "Failed to multiply"),
                           .error (.multiplicatorUnitFailure "Failed to multiply")],
               completion := .error (.other "TypeError"
                 "Cannot mix BigInt and other types, use explicit conversions") } :=
  (trial_rethrows_other_errors typeErrorThird
    [.multiplicatorUnitFailure "Failed to multiply", .multiplicatorUnitFailure "Failed to multiply"]
    (.other "TypeError" "Cannot mix BigInt and other types, use explicit conversions") 4
    (fun i x hx => by
      match i, hx with
      | 0, hx => simp at hx; subst hx; rfl
      | 1, hx => simp at hx; subst hx; rfl
      | i + 2, hx => simp at hx)
    (fun x hx => by
      simp only [List.mem_cons, List.mem_singleton, List.not_mem_nil, or_false, or_self] at hx
      subst hx; rfl)
    rfl rfl (by decide)).1

end Retry
